import Mathlib

/-!
Verification of the order-management domain core (Order aggregate and its
value objects: Currency, Money, Sku, Quantity, OrderId, CustomerId,
OrderItem, domain events).

Modelling conventions:
* JavaScript numbers are modelled by `JsNum`: a finite value idealised as a
  rational, or one of the non-finite values NaN / +Infinity / -Infinity.
  `Math.round x` is modelled as `⌊x + 1/2⌋`, its behaviour on finite doubles.
* Strings are Lean strings; `String.prototype.trim` is modelled by `jsTrim`
  over the ASCII whitespace characters, and `toUpperCase` by the per-character
  ASCII case mapping `jsToUpper`.
* Exceptions are modelled by `Except`; for the mutating `Order` methods the
  error also carries the state of the aggregate at the moment of the throw,
  so that partial-mutation behaviour is expressible.
* Domain events carry the payload fields of the source event classes; the
  nondeterministic metadata of the abstract base class (`occurredOn` wall
  clock, random `eventId`) is not modelled.
-/

attribute [local semireducible] Rat.add Rat.mul Rat.sub Rat.inv

deriving instance DecidableEq for Except

/-- Model of a JavaScript number at the validation boundary: a finite value
(idealised as a rational) or one of the non-finite values. -/
inductive JsNum where
  | nan : JsNum
  | posInf : JsNum
  | negInf : JsNum
  | num : ℚ → JsNum
deriving DecidableEq

/-- Model of `Number.isFinite`. -/
def JsNum.isFinite : JsNum → Bool
  | .num _ => true
  | _ => false

/-- Model of `Number.isInteger`. -/
def JsNum.isInteger : JsNum → Bool
  | .num q => q.den == 1
  | _ => false

/-- Model of `Math.round` on finite values: floor of x + 1/2. -/
def jsMathRound (q : ℚ) : ℤ := ⌊q + 1/2⌋

/-- The code's 2-decimal rounding: `Math.round(amount * 100) / 100`. -/
def round2 (q : ℚ) : ℚ := (jsMathRound (q * 100) : ℚ) / 100

/-- Rounding half away from zero at 2 decimals, as the spec words it.
Modelled from the spec: "round-half-away-from-zero at 2 decimal places". -/
def specRound2 (q : ℚ) : ℚ :=
  if 0 ≤ q then ((⌊q * 100 + 1/2⌋ : ℤ) : ℚ) / 100
  else -(((⌊-(q * 100) + 1/2⌋ : ℤ) : ℚ) / 100)

/-- ASCII whitespace characters trimmed by `String.prototype.trim`. -/
def jsWhitespaceChar (c : Char) : Bool :=
  c.toNat == 32 || c.toNat == 9 || c.toNat == 10 ||
  c.toNat == 13 || c.toNat == 11 || c.toNat == 12

/-- Model of `String.prototype.trim`: drop whitespace at both ends. -/
def jsTrim (s : String) : String :=
  ⟨((s.data.dropWhile jsWhitespaceChar).reverse.dropWhile jsWhitespaceChar).reverse⟩

/-- Model of `String.prototype.toUpperCase` (ASCII case mapping). -/
def jsToUpper (s : String) : String := ⟨s.data.map Char.toUpper⟩

/-- Currency value object: the fixed supported set of ISO codes. -/
inductive Currency where
  | USD : Currency
  | EUR : Currency
  | COP : Currency
  | GBP : Currency
  | JPY : Currency
deriving DecidableEq

/-- The `code` getter of `Currency`. -/
def Currency.code : Currency → String
  | .USD => "USD"
  | .EUR => "EUR"
  | .COP => "COP"
  | .GBP => "GBP"
  | .JPY => "JPY"

/-- `Currency.equals`: comparison by code string. -/
def Currency.equals (a b : Currency) : Bool := a.code == b.code

/-- Money value object: an amount paired with a currency. -/
structure Money where
  amount : ℚ
  currency : Currency
deriving DecidableEq

/-- Error kinds thrown by `Money` operations. -/
inductive MoneyError where
  | notFinite : MoneyError
  | negativeAmount : MoneyError
  | currencyMismatch : String → String → MoneyError
  | negativeResult : MoneyError
  | invalidFactor : MoneyError
deriving DecidableEq

/-- `Money.create`: reject non-finite and negative amounts, round to
2 decimals on construction. -/
def Money.create (x : JsNum) (c : Currency) : Except MoneyError Money :=
  match x with
  | .num a => if a < 0 then .error .negativeAmount else .ok ⟨round2 a, c⟩
  | _ => .error .notFinite

/-- `Money.zero`: the zero amount of a currency (direct construction). -/
def Money.zero (c : Currency) : Money := ⟨0, c⟩

/-- `Money.add`: same-currency addition, re-validated through `create`. -/
def Money.add (m other : Money) : Except MoneyError Money :=
  if m.currency.equals other.currency then
    Money.create (.num (m.amount + other.amount)) m.currency
  else .error (.currencyMismatch m.currency.code other.currency.code)

/-- `Money.subtract`: same-currency subtraction, rejecting negative results,
re-validated through `create`. -/
def Money.subtract (m other : Money) : Except MoneyError Money :=
  if m.currency.equals other.currency then
    if m.amount - other.amount < 0 then .error .negativeResult
    else Money.create (.num (m.amount - other.amount)) m.currency
  else .error (.currencyMismatch m.currency.code other.currency.code)

/-- `Money.multiply`: scalar multiplication by a non-negative finite factor,
re-validated through `create`. -/
def Money.multiply (m : Money) (factor : JsNum) : Except MoneyError Money :=
  match factor with
  | .num f =>
    if f < 0 then .error .invalidFactor
    else Money.create (.num (m.amount * f)) m.currency
  | _ => .error .invalidFactor

/-- `Money.equals`: amount and currency both compared. -/
def Money.equals (m other : Money) : Bool :=
  m.amount == other.amount && m.currency.equals other.currency

/-- The values the private constructor of `Money` can actually hold: a
non-negative whole number of cents. `create` and `zero` only produce such
values. -/
def Money.IsValid (m : Money) : Prop := ∃ k : ℕ, m.amount = (k : ℚ) / 100

/-- An SKU character as allowed by the pattern `[A-Z0-9-]`. -/
def skuValidChar (c : Char) : Bool :=
  (65 ≤ c.toNat && c.toNat ≤ 90) || (48 ≤ c.toNat && c.toNat ≤ 57) || c.toNat == 45

/-- Sku value object (full variant): a normalized product code. -/
structure Sku where
  code : String
deriving DecidableEq

/-- Error kinds thrown by `Sku.create`. -/
inductive SkuError where
  | empty : SkuError
  | tooShort : SkuError
  | tooLong : SkuError
  | badChars : SkuError
deriving DecidableEq

/-- `Sku.create` (full variant): reject blank input, then normalize by trim
and upper-case, then validate length 3..50 and the character set. -/
def Sku.create (code : String) : Except SkuError Sku :=
  if (jsTrim code).data.isEmpty then .error .empty
  else
    let normalized := jsToUpper (jsTrim code)
    if normalized.data.length < 3 then .error .tooShort
    else if 50 < normalized.data.length then .error .tooLong
    else if !(normalized.data.all skuValidChar) then .error .badChars
    else .ok ⟨normalized⟩

/-- `Sku.equals`: comparison by stored code. -/
def Sku.equals (a b : Sku) : Bool := a.code == b.code

/-- Quantity value object: a number of units. -/
structure Quantity where
  value : ℚ
deriving DecidableEq

/-- Error kinds thrown by `Quantity.create`. -/
inductive QuantityError where
  | notInteger : QuantityError
  | notPositive : QuantityError
  | exceedsMax : QuantityError
deriving DecidableEq

/-- `Quantity.create`: reject non-integers, non-positive values and values
above 10000, in that order. -/
def Quantity.create (x : JsNum) : Except QuantityError Quantity :=
  match x with
  | .num v =>
    if v.den ≠ 1 then .error .notInteger
    else if v ≤ 0 then .error .notPositive
    else if 10000 < v then .error .exceedsMax
    else .ok ⟨v⟩
  | _ => .error .notInteger

/-- `Quantity.add`: the sum re-validated by `create`. -/
def Quantity.add (q other : Quantity) : Except QuantityError Quantity :=
  Quantity.create (.num (q.value + other.value))

/-- `Quantity.equals`: comparison by value. -/
def Quantity.equals (a b : Quantity) : Bool := a.value == b.value

/-- The values the private constructor of `Quantity` can actually hold: an
integer between 1 and 10000. `create` only produces such values. -/
def Quantity.IsValid (q : Quantity) : Prop :=
  ∃ n : ℤ, q.value = (n : ℚ) ∧ 1 ≤ n ∧ n ≤ 10000

/-- A hexadecimal digit as matched by `[0-9a-f]` under the `i` flag. -/
def isHexChar (c : Char) : Bool :=
  (48 ≤ c.toNat && c.toNat ≤ 57) || (97 ≤ c.toNat && c.toNat ≤ 102) ||
  (65 ≤ c.toNat && c.toNat ≤ 70)

/-- The UUID v4 regex of the identifier value objects:
`^[0-9a-f]{8}-[0-9a-f]{4}-4[0-9a-f]{3}-[89ab][0-9a-f]{3}-[0-9a-f]{12}$`
with the `i` flag, transcribed position by position. -/
def isUuidV4 (s : String) : Bool :=
  let cs := s.data
  cs.length == 36 &&
  (List.range 36).all fun i =>
    let c := cs.getD i '?'
    if i == 8 || i == 13 || i == 18 || i == 23 then c == '-'
    else if i == 14 then c == '4'
    else if i == 19 then
      c == '8' || c == '9' || c == 'a' || c == 'b' || c == 'A' || c == 'B'
    else isHexChar c

/-- Error kinds thrown by the identifier factories. -/
inductive IdError where
  | empty : IdError
  | badFormat : IdError
deriving DecidableEq

/-- OrderId value object. -/
structure OrderId where
  value : String
deriving DecidableEq

/-- `OrderId.create`: reject blank input, validate the trimmed input against
the UUID v4 regex, store the trimmed value. -/
def OrderId.create (value : String) : Except IdError OrderId :=
  if (jsTrim value).data.isEmpty then .error .empty
  else if !(isUuidV4 (jsTrim value)) then .error .badFormat
  else .ok ⟨jsTrim value⟩

/-- `OrderId.equals`: comparison by stored value. -/
def OrderId.equals (a b : OrderId) : Bool := a.value == b.value

/-- CustomerId value object. -/
structure CustomerId where
  value : String
deriving DecidableEq

/-- `CustomerId.create`: identical validation to `OrderId.create`. -/
def CustomerId.create (value : String) : Except IdError CustomerId :=
  if (jsTrim value).data.isEmpty then .error .empty
  else if !(isUuidV4 (jsTrim value)) then .error .badFormat
  else .ok ⟨jsTrim value⟩

/-- `CustomerId.equals`: comparison by stored value. -/
def CustomerId.equals (a b : CustomerId) : Bool := a.value == b.value

/-- OrderItem value object: SKU, unit price and quantity. -/
structure OrderItem where
  sku : Sku
  unitPrice : Money
  quantity : Quantity
deriving DecidableEq

/-- `OrderItem.create`: pure construction, no cross-field validation. -/
def OrderItem.create (sku : Sku) (unitPrice : Money) (quantity : Quantity) : OrderItem :=
  ⟨sku, unitPrice, quantity⟩

/-- `OrderItem.calculateTotal`: unit price times quantity value. -/
def OrderItem.calculateTotal (it : OrderItem) : Except MoneyError Money :=
  it.unitPrice.multiply (.num it.quantity.value)

/-- Domain events of the aggregate, with the payload of each source event
class. -/
inductive DomainEvent where
  | orderCreated : OrderId → CustomerId → Currency → DomainEvent
  | itemAddedToOrder : OrderId → Sku → Money → Quantity → Money → DomainEvent
  | orderTotalCalculated : OrderId → Money → ℕ → DomainEvent
deriving DecidableEq

/-- Order aggregate root state. -/
structure Order where
  id : OrderId
  customerId : CustomerId
  currency : Currency
  items : List OrderItem
  domainEvents : List DomainEvent
deriving DecidableEq

/-- The `MAX_ITEMS` constant of the aggregate. -/
def Order.maxItems : ℕ := 100

/-- `Order.create`: fresh empty order with one OrderCreated event pending. -/
def Order.create (id : OrderId) (customerId : CustomerId) (currency : Currency) : Order :=
  ⟨id, customerId, currency, [], [.orderCreated id customerId currency]⟩

/-- Error kinds thrown by `Order.addItem`; `moneyError` propagates an
exception of a `Money` operation used while building the event payload. -/
inductive OrderError where
  | currencyMismatch : String → String → OrderError
  | itemLimitExceeded : OrderError
  | duplicateSku : String → OrderError
  | moneyError : MoneyError → OrderError
deriving DecidableEq

/-- `Order.addItem`: validate currency match, then the item limit, then
duplicate SKU; on success push the item and then the ItemAddedToOrder event.
The error carries the aggregate state at the moment of the throw, so that a
throw after a push would be visible as a partial mutation. -/
def Order.addItem (o : Order) (sku : Sku) (unitPrice : Money) (quantity : Quantity) :
    Except (OrderError × Order) Order :=
  if !(o.currency.equals unitPrice.currency) then
    .error (.currencyMismatch unitPrice.currency.code o.currency.code, o)
  else if Order.maxItems ≤ o.items.length then
    .error (.itemLimitExceeded, o)
  else if o.items.any (fun it => it.sku.equals sku) then
    .error (.duplicateSku sku.code, o)
  else
    match (OrderItem.create sku unitPrice quantity).calculateTotal with
    | .error e =>
      .error (.moneyError e,
        { o with items := o.items ++ [OrderItem.create sku unitPrice quantity] })
    | .ok t =>
      .ok { o with
            items := o.items ++ [OrderItem.create sku unitPrice quantity],
            domainEvents := o.domainEvents ++
              [.itemAddedToOrder o.id sku unitPrice quantity t] }

/-- The reduce of `calculateTotal`: left-to-right accumulation of the items'
line totals via `Money.add`, propagating the first exception. -/
def Money.addLineTotals : Money → List OrderItem → Except MoneyError Money
  | acc, [] => .ok acc
  | acc, it :: rest =>
    match it.calculateTotal with
    | .error e => .error e
    | .ok t =>
      match acc.add t with
      | .error e => .error e
      | .ok acc2 => Money.addLineTotals acc2 rest

/-- `Order.calculateTotal`: zero of the order currency for an empty order
(no event); otherwise the reduce over the items starting from zero, then one
OrderTotalCalculated event appended. The error carries the aggregate state
at the moment of the throw. -/
def Order.calculateTotal (o : Order) : Except (MoneyError × Order) (Money × Order) :=
  if o.items.length == 0 then .ok (Money.zero o.currency, o)
  else
    match Money.addLineTotals (Money.zero o.currency) o.items with
    | .error e => .error (e, o)
    | .ok total =>
      .ok (total,
        { o with domainEvents := o.domainEvents ++
            [.orderTotalCalculated o.id total o.items.length] })

/-- The `itemCount` getter. -/
def Order.itemCount (o : Order) : ℕ := o.items.length

/-- The `isEmpty` query. -/
def Order.isEmpty (o : Order) : Bool := o.items.length == 0

/-- All items of the order carry the order's currency and hold values the
`Money` and `Quantity` factories can actually produce. -/
def Order.ItemsValid (o : Order) : Prop :=
  ∀ it ∈ o.items,
    it.unitPrice.currency = o.currency ∧
    Money.IsValid it.unitPrice ∧ Quantity.IsValid it.quantity

/-- Invariant A: every item's unit-price currency equals the order's
currency. -/
def Order.InvariantA (o : Order) : Prop :=
  ∀ it ∈ o.items, it.unitPrice.currency = o.currency

/-- Invariant B: no two items share the same stored SKU code. -/
def Order.InvariantB (o : Order) : Prop :=
  o.items.Pairwise fun a b => a.sku.code ≠ b.sku.code

/-- Invariant C: at most 100 items. -/
def Order.InvariantC (o : Order) : Prop := o.items.length ≤ Order.maxItems

/-- Orders reachable by `Order.create` followed by successful `addItem`
calls whose `Money` and `Quantity` arguments are values the factories can
produce (in the source the private constructors guarantee this by typing). -/
inductive Order.Reachable : Order → Prop where
  | created (id : OrderId) (customerId : CustomerId) (currency : Currency) :
      Order.Reachable (Order.create id customerId currency)
  | added {o o' : Order} (sku : Sku) (unitPrice : Money) (quantity : Quantity) :
      Order.Reachable o → Money.IsValid unitPrice → Quantity.IsValid quantity →
      Order.addItem o sku unitPrice quantity = .ok o' → Order.Reachable o'

/-! Shared lemmas about rounding and the value objects. -/

theorem jsMathRound_intCast (n : ℤ) : jsMathRound ((n : ℚ)) = n := by
  have h0 : ⌊(1/2 : ℚ)⌋ = 0 := by decide
  rw [jsMathRound, Int.floor_int_add, h0, add_zero]

theorem round2_cents (k : ℤ) : round2 ((k : ℚ) / 100) = (k : ℚ) / 100 := by
  have h : ((k : ℚ) / 100) * 100 = (k : ℚ) := by
    rw [div_mul_cancel₀]
    norm_num
  rw [round2, h, jsMathRound_intCast]

theorem round2_isCents (q : ℚ) (h : 0 ≤ q) : ∃ k : ℕ, round2 q = (k : ℚ) / 100 := by
  have hnn : 0 ≤ jsMathRound (q * 100) := by
    rw [jsMathRound]
    exact Int.floor_nonneg.mpr (by positivity)
  refine ⟨(jsMathRound (q * 100)).toNat, ?_⟩
  rw [round2]
  congr 1
  exact_mod_cast (Int.toNat_of_nonneg hnn).symm

theorem specRound2_eq_round2 (q : ℚ) (h : 0 ≤ q) : specRound2 q = round2 q := by
  rw [specRound2, if_pos h, round2, jsMathRound]

theorem Money.isValid_nonneg {m : Money} (h : m.IsValid) : 0 ≤ m.amount := by
  obtain ⟨k, hk⟩ := h
  rw [hk]
  positivity

theorem Currency.equals_iff {a b : Currency} : Currency.equals a b = true ↔ a = b := by
  cases a <;> cases b <;> decide

theorem Sku.equals_code_iff {a b : Sku} : Sku.equals a b = true ↔ a.code = b.code := by
  simp [Sku.equals]

theorem Money.create_num_ok {q : ℚ} (h : 0 ≤ q) (c : Currency) :
    Money.create (.num q) c = .ok ⟨round2 q, c⟩ := by
  simp [Money.create, not_lt.mpr h]

theorem Money.create_isValid {x : JsNum} {c : Currency} {m : Money}
    (h : Money.create x c = .ok m) : m.IsValid := by
  cases x with
  | num q =>
    by_cases hq : q < 0
    · simp [Money.create, hq] at h
    · rw [Money.create_num_ok (not_lt.mp hq)] at h
      obtain ⟨k, hk⟩ := round2_isCents q (not_lt.mp hq)
      cases h
      exact ⟨k, hk⟩
  | nan => simp [Money.create] at h
  | posInf => simp [Money.create] at h
  | negInf => simp [Money.create] at h

theorem Money.zero_isValid (c : Currency) : (Money.zero c).IsValid :=
  ⟨0, by simp [Money.zero]⟩

theorem Money.add_ok {a b : Money} (ha : a.IsValid) (hb : b.IsValid)
    (hc : a.currency = b.currency) :
    a.add b = .ok ⟨a.amount + b.amount, a.currency⟩ := by
  obtain ⟨ka, hka⟩ := ha
  obtain ⟨kb, hkb⟩ := hb
  have he : a.currency.equals b.currency = true := Currency.equals_iff.mpr hc
  have hsum : a.amount + b.amount = (((ka + kb : ℕ) : ℤ) : ℚ) / 100 := by
    rw [hka, hkb]
    push_cast
    ring
  have hnn : 0 ≤ a.amount + b.amount := by
    rw [hsum]
    positivity
  rw [Money.add, if_pos he, Money.create_num_ok hnn]
  rw [hsum, round2_cents]

theorem Money.add_ok_isValid {a b : Money} (ha : a.IsValid) (hb : b.IsValid) :
    Money.IsValid ⟨a.amount + b.amount, a.currency⟩ := by
  obtain ⟨ka, hka⟩ := ha
  obtain ⟨kb, hkb⟩ := hb
  refine ⟨ka + kb, ?_⟩
  show a.amount + b.amount = _
  rw [hka, hkb]
  push_cast
  ring

theorem Money.multiply_ok {m : Money} {f : ℚ} (hm : 0 ≤ m.amount) (hf : 0 ≤ f) :
    m.multiply (.num f) = .ok ⟨round2 (m.amount * f), m.currency⟩ := by
  rw [Money.multiply, if_neg (not_lt.mpr hf), Money.create_num_ok (by positivity)]

theorem round2_natCents (k : ℕ) : round2 ((k : ℚ) / 100) = (k : ℚ) / 100 := by
  have h := round2_cents (k : ℤ)
  push_cast at h
  exact h

theorem round2_of_isValid {m : Money} (h : m.IsValid) : round2 m.amount = m.amount := by
  obtain ⟨k, hk⟩ := h
  rw [hk, round2_natCents]

theorem Money.create_ok_inv {x : JsNum} {c : Currency} {m : Money}
    (h : Money.create x c = .ok m) :
    ∃ q : ℚ, x = .num q ∧ 0 ≤ q ∧ m = ⟨round2 q, c⟩ := by
  cases x with
  | num q =>
    by_cases hq : q < 0
    · simp [Money.create, hq] at h
    · rw [Money.create_num_ok (not_lt.mp hq)] at h
      cases h
      exact ⟨q, rfl, not_lt.mp hq, rfl⟩
  | nan => simp [Money.create] at h
  | posInf => simp [Money.create] at h
  | negInf => simp [Money.create] at h

theorem Quantity.create_int_ok {v : ℚ} (h1 : v.den = 1) (h2 : 0 < v) (h3 : v ≤ 10000) :
    Quantity.create (.num v) = .ok ⟨v⟩ := by
  simp [Quantity.create, h1, not_le.mpr h2, not_lt.mpr h3]

theorem Quantity.create_ok_valid {x : JsNum} {q : Quantity}
    (h : Quantity.create x = .ok q) : q.IsValid := by
  cases x with
  | num v =>
    rw [Quantity.create] at h
    split_ifs at h with hden hle hmax
    cases h
    have hnum : ((v.num : ℚ)) = v := (Rat.den_eq_one_iff v).mp (not_not.mp hden)
    refine ⟨v.num, hnum.symm, ?_, ?_⟩
    · have hpos : 0 < v := lt_of_not_le hle
      have : (0 : ℚ) < (v.num : ℚ) := hnum ▸ hpos
      exact_mod_cast this
    · have hle10000 : v ≤ 10000 := not_lt.mp hmax
      have : ((v.num : ℚ)) ≤ ((10000 : ℤ) : ℚ) := by
        rw [hnum]
        exact_mod_cast hle10000
      exact_mod_cast this
  | nan => simp [Quantity.create] at h
  | posInf => simp [Quantity.create] at h
  | negInf => simp [Quantity.create] at h

/-- C6: `Money.create(amount, currency)` fails exactly when the amount is
non-finite or negative; otherwise the stored amount is the input rounded to
2 decimals with ties rounded half away from zero, and the same rounding is
applied to the result of every add, subtract and multiply. -/
theorem C6_money_create_rounding :
    (∀ (x : JsNum) (c : Currency),
      (∃ e, Money.create x c = .error e) ↔
        x.isFinite = false ∨ ∃ q : ℚ, x = .num q ∧ q < 0) ∧
    (∀ (q : ℚ) (c : Currency), 0 ≤ q →
      Money.create (.num q) c = .ok ⟨specRound2 q, c⟩) ∧
    (∀ a b m : Money, a.add b = .ok m → m.amount = specRound2 (a.amount + b.amount)) ∧
    (∀ a b m : Money, a.subtract b = .ok m → m.amount = specRound2 (a.amount - b.amount)) ∧
    (∀ (a : Money) (f : ℚ) (m : Money),
      a.multiply (.num f) = .ok m → m.amount = specRound2 (a.amount * f)) := by
  refine ⟨?_, ?_, ?_, ?_, ?_⟩
  · intro x c
    cases x with
    | num q =>
      by_cases hq : q < 0
      · exact iff_of_true ⟨.negativeAmount, by simp [Money.create, hq]⟩
          (.inr ⟨q, rfl, hq⟩)
      · rw [Money.create_num_ok (not_lt.mp hq) c]
        simp [JsNum.isFinite, hq]
    | nan => exact iff_of_true ⟨.notFinite, rfl⟩ (.inl rfl)
    | posInf => exact iff_of_true ⟨.notFinite, rfl⟩ (.inl rfl)
    | negInf => exact iff_of_true ⟨.notFinite, rfl⟩ (.inl rfl)
  · intro q c h
    rw [Money.create_num_ok h, specRound2_eq_round2 q h]
  · intro a b m h
    rw [Money.add] at h
    by_cases he : a.currency.equals b.currency
    · rw [if_pos he] at h
      obtain ⟨q, hq, hnn, hm⟩ := Money.create_ok_inv h
      injection hq with hq'
      subst hq'
      rw [hm, specRound2_eq_round2 _ hnn]
    · rw [if_neg he] at h
      exact absurd h (by simp)
  · intro a b m h
    rw [Money.subtract] at h
    by_cases he : a.currency.equals b.currency
    · rw [if_pos he] at h
      by_cases hd : a.amount - b.amount < 0
      · rw [if_pos hd] at h
        exact absurd h (by simp)
      · rw [if_neg hd] at h
        obtain ⟨q, hq, hnn, hm⟩ := Money.create_ok_inv h
        injection hq with hq'
        subst hq'
        rw [hm, specRound2_eq_round2 _ hnn]
    · rw [if_neg he] at h
      exact absurd h (by simp)
  · intro a f m h
    rw [Money.multiply] at h
    by_cases hf : f < 0
    · rw [if_pos hf] at h
      exact absurd h (by simp)
    · rw [if_neg hf] at h
      obtain ⟨q, hq, hnn, hm⟩ := Money.create_ok_inv h
      injection hq with hq'
      subst hq'
      rw [hm, specRound2_eq_round2 _ hnn]

theorem C6_witness :
    Money.create (.num (1/40)) Currency.USD = .ok ⟨3/100, Currency.USD⟩ ∧
    (0 : ℚ) ≤ 1/40 := by
  constructor
  · rw [C6_money_create_rounding.2.1 (1/40) Currency.USD (by decide)]
    decide
  · decide

/-- C7: for same-currency constructible amounts, subtracting `b` after adding
`b` gives back a value equal to `a`. -/
theorem C7_add_subtract_inverse {a b : Money} (ha : a.IsValid) (hb : b.IsValid)
    (hc : a.currency = b.currency) :
    ∃ s m : Money, a.add b = .ok s ∧ s.subtract b = .ok m ∧ m.equals a = true := by
  refine ⟨⟨a.amount + b.amount, a.currency⟩, ⟨a.amount, a.currency⟩,
    Money.add_ok ha hb hc, ?_, ?_⟩
  · show Money.subtract _ _ = _
    rw [Money.subtract]
    have he : Currency.equals a.currency b.currency = true := Currency.equals_iff.mpr hc
    show (if Currency.equals a.currency b.currency then _ else _) = _
    rw [if_pos he]
    have h1 : a.amount + b.amount - b.amount = a.amount := by ring
    show (if a.amount + b.amount - b.amount < 0 then _
      else Money.create (.num (a.amount + b.amount - b.amount)) a.currency) = _
    rw [h1, if_neg (not_lt.mpr (Money.isValid_nonneg ha)),
      Money.create_num_ok (Money.isValid_nonneg ha), round2_of_isValid ha]
  · simp [Money.equals, Currency.equals]

theorem C7_witness :
    ∃ s m : Money,
      Money.add ⟨10, Currency.USD⟩ ⟨11/2, Currency.USD⟩ = .ok s ∧
      Money.subtract s ⟨11/2, Currency.USD⟩ = .ok m ∧
      Money.equals m ⟨10, Currency.USD⟩ = true :=
  C7_add_subtract_inverse ⟨1000, by decide⟩ ⟨550, by decide⟩ rfl

/-- C8: `Quantity.create` fails exactly for non-integral, non-positive or
over-10000 values; `add` re-validates the sum by the same rule, failing
beyond 10000 and otherwise returning the sum. -/
theorem C8_quantity_create_add :
    (∀ x : JsNum,
      (∃ e, Quantity.create x = .error e) ↔
        x.isInteger = false ∨ ∃ v : ℚ, x = .num v ∧ (v ≤ 0 ∨ 10000 < v)) ∧
    (∀ q1 q2 : Quantity, q1.add q2 = Quantity.create (.num (q1.value + q2.value))) ∧
    (∀ q1 q2 : Quantity, q1.IsValid → q2.IsValid →
      (10000 < q1.value + q2.value → q1.add q2 = .error .exceedsMax) ∧
      (q1.value + q2.value ≤ 10000 → q1.add q2 = .ok ⟨q1.value + q2.value⟩)) := by
  refine ⟨?_, fun _ _ => rfl, ?_⟩
  · intro x
    cases x with
    | num v =>
      rw [Quantity.create]
      by_cases hden : v.den ≠ 1
      · rw [if_pos hden]
        exact iff_of_true ⟨.notInteger, rfl⟩ (.inl (by simp [JsNum.isInteger, hden]))
      · rw [if_neg hden]
        by_cases hle : v ≤ 0
        · rw [if_pos hle]
          exact iff_of_true ⟨.notPositive, rfl⟩ (.inr ⟨v, rfl, .inl hle⟩)
        · rw [if_neg hle]
          by_cases hmax : 10000 < v
          · rw [if_pos hmax]
            exact iff_of_true ⟨.exceedsMax, rfl⟩ (.inr ⟨v, rfl, .inr hmax⟩)
          · rw [if_neg hmax]
            refine iff_of_false (by simp) ?_
            simp [JsNum.isInteger, not_not.mp hden]
            exact ⟨lt_of_not_le hle, not_lt.mp hmax⟩
    | nan => exact iff_of_true ⟨.notInteger, rfl⟩ (.inl rfl)
    | posInf => exact iff_of_true ⟨.notInteger, rfl⟩ (.inl rfl)
    | negInf => exact iff_of_true ⟨.notInteger, rfl⟩ (.inl rfl)
  · rintro q1 q2 ⟨n1, hv1, h11, h12⟩ ⟨n2, hv2, h21, h22⟩
    have hsum : q1.value + q2.value = ((n1 + n2 : ℤ) : ℚ) := by
      rw [hv1, hv2]
      push_cast
      ring
    have hpos : (0 : ℚ) < ((n1 + n2 : ℤ) : ℚ) := by
      have : (0 : ℤ) < n1 + n2 := by omega
      exact_mod_cast this
    constructor
    · intro hgt
      rw [hsum] at hgt
      rw [Quantity.add, hsum, Quantity.create,
        if_neg (not_not_intro (Rat.den_intCast _)), if_neg (not_le.mpr hpos),
        if_pos hgt]
    · intro hle
      rw [hsum] at hle
      rw [Quantity.add, hsum, Quantity.create,
        if_neg (not_not_intro (Rat.den_intCast _)), if_neg (not_le.mpr hpos),
        if_neg (not_lt.mpr hle), ← hsum]

theorem C8_witness :
    Quantity.add ⟨6000⟩ ⟨5000⟩ = .error .exceedsMax ∧
    Quantity.add ⟨2⟩ ⟨3⟩ = .ok ⟨5⟩ := by
  constructor
  · exact (C8_quantity_create_add.2.2 ⟨6000⟩ ⟨5000⟩
      ⟨6000, by decide, by decide, by decide⟩
      ⟨5000, by decide, by decide, by decide⟩).1 (by decide)
  · rw [(C8_quantity_create_add.2.2 ⟨2⟩ ⟨3⟩
      ⟨2, by decide, by decide, by decide⟩
      ⟨3, by decide, by decide, by decide⟩).2 (by decide)]
    decide

/-- The normalization performed by `Sku.create`: trim, then upper-case. -/
def skuNorm (s : String) : String := jsToUpper (jsTrim s)

theorem dropWhile_ws_eq_self {l : List Char}
    (h : ∀ c ∈ l, jsWhitespaceChar c = false) :
    l.dropWhile jsWhitespaceChar = l := by
  cases l with
  | nil => rfl
  | cons c rest =>
    rw [List.dropWhile_cons, h c (List.mem_cons_self c rest)]
    simp

theorem jsTrim_eq_self {s : String}
    (h : ∀ c ∈ s.data, jsWhitespaceChar c = false) : jsTrim s = s := by
  have h2 : ∀ c ∈ s.data.reverse, jsWhitespaceChar c = false :=
    fun c hc => h c (List.mem_reverse.mp hc)
  rw [jsTrim, dropWhile_ws_eq_self h, dropWhile_ws_eq_self h2, List.reverse_reverse]

theorem jsTrim_pad {s : String}
    (h : ∀ c ∈ s.data, jsWhitespaceChar c = false) :
    jsTrim (" " ++ s ++ " ") = s := by
  rw [jsTrim]
  have hdata : (" " ++ s ++ " ").data = ' ' :: (s.data ++ [' ']) := rfl
  rw [hdata]
  rw [List.dropWhile_cons]
  have hws : jsWhitespaceChar ' ' = true := by decide
  rw [hws]
  simp only [if_true]
  cases hs : s.data with
  | nil =>
    simp only [hs, List.nil_append]
    have : jsTrim s = s := jsTrim_eq_self h
    have hempty : s = ⟨[]⟩ := by
      cases s
      simp at hs
      rw [hs]
    rw [hempty]
    rfl
  | cons c rest =>
    have hc : jsWhitespaceChar c = false := h c (by rw [hs]; exact List.mem_cons_self c rest)
    rw [show (c :: rest) ++ [' '] = c :: (rest ++ [' ']) from rfl, List.dropWhile_cons, hc]
    simp only [Bool.false_eq_true, if_false]
    have hrev : (c :: (rest ++ [' '])).reverse = ' ' :: (c :: rest).reverse := by
      rw [show c :: (rest ++ [' ']) = (c :: rest) ++ [' '] from rfl, List.reverse_append]
      simp
    rw [hrev, List.dropWhile_cons, hws]
    simp only [if_true]
    have h2 : ∀ d ∈ (c :: rest).reverse, jsWhitespaceChar d = false := by
      intro d hd
      exact h d (by rw [hs]; exact List.mem_reverse.mp hd)
    rw [dropWhile_ws_eq_self h2, List.reverse_reverse, ← hs]

theorem isHexChar_not_ws {c : Char} (h : isHexChar c = true) :
    jsWhitespaceChar c = false := by
  simp [isHexChar] at h
  simp [jsWhitespaceChar]
  omega

theorem uuid_chars_not_ws {s : String} (h : isUuidV4 s = true) :
    ∀ c ∈ s.data, jsWhitespaceChar c = false := by
  intro c hc
  rw [isUuidV4, Bool.and_eq_true] at h
  obtain ⟨hlen, hall⟩ := h
  have hlen' : s.data.length = 36 := by simpa using hlen
  rw [List.all_eq_true] at hall
  obtain ⟨i, hi, hget⟩ := List.mem_iff_getElem.mp hc
  have hi36 : i < 36 := hlen' ▸ hi
  have hP := hall i (List.mem_range.mpr hi36)
  simp only at hP
  have hgd : s.data.getD i '?' = c := by
    rw [List.getD_eq_getElem?_getD, List.getElem?_eq_getElem hi, hget]
    rfl
  rw [hgd] at hP
  split_ifs at hP with h1 h2 h3
  · have : c = '-' := by simpa using hP
    subst this
    decide
  · have : c = '4' := by simpa using hP
    subst this
    decide
  · simp only [Bool.or_eq_true, beq_iff_eq] at hP
    have hset : c = '8' ∨ c = '9' ∨ c = 'a' ∨ c = 'b' ∨ c = 'A' ∨ c = 'B' := by tauto
    rcases hset with rfl | rfl | rfl | rfl | rfl | rfl <;> decide
  · exact isHexChar_not_ws hP

theorem skuNorm_data (s : String) :
    (skuNorm s).data = (jsTrim s).data.map Char.toUpper := rfl

theorem skuNorm_nil_iff (s : String) :
    (skuNorm s).data = [] ↔ (jsTrim s).data.isEmpty = true := by
  rw [skuNorm_data, List.isEmpty_iff]
  simp

theorem Sku.create_of_empty {s : String} (h : (jsTrim s).data.isEmpty = true) :
    Sku.create s = .error .empty := by
  rw [Sku.create, if_pos h]

theorem Sku.create_of_not_empty {s : String} (h : ¬((jsTrim s).data.isEmpty = true)) :
    Sku.create s =
      (if (skuNorm s).data.length < 3 then .error .tooShort
       else if 50 < (skuNorm s).data.length then .error .tooLong
       else if !((skuNorm s).data.all skuValidChar) then .error .badChars
       else .ok ⟨skuNorm s⟩) := by
  rw [Sku.create, if_neg h]
  rfl

/-- C9: `Sku.create` normalizes by trim and upper-case, fails exactly when the
normalized code is empty, shorter than 3, longer than 50 or contains a
character outside A-Z, 0-9 and the hyphen; on success it stores the
normalized code, so inputs with equal normalizations yield equal results. -/
theorem C9_sku_normalization :
    (∀ s : String,
      (∃ e, Sku.create s = .error e) ↔
        ((skuNorm s).data = [] ∨ (skuNorm s).data.length < 3 ∨
         50 < (skuNorm s).data.length ∨ (skuNorm s).data.all skuValidChar = false)) ∧
    (∀ (s : String) (sk : Sku), Sku.create s = .ok sk → sk.code = skuNorm s) ∧
    (∀ s₁ s₂ : String, skuNorm s₁ = skuNorm s₂ → Sku.create s₁ = Sku.create s₂) := by
  refine ⟨?_, ?_, ?_⟩
  · intro s
    by_cases hempty : (jsTrim s).data.isEmpty = true
    · exact iff_of_true ⟨.empty, Sku.create_of_empty hempty⟩
        (.inl ((skuNorm_nil_iff s).mpr hempty))
    · have hni : ¬((skuNorm s).data = []) := fun hx => hempty ((skuNorm_nil_iff s).mp hx)
      rw [Sku.create_of_not_empty hempty]
      by_cases h3 : (skuNorm s).data.length < 3
      · rw [if_pos h3]
        exact iff_of_true ⟨.tooShort, rfl⟩ (.inr (.inl h3))
      · rw [if_neg h3]
        by_cases h50 : 50 < (skuNorm s).data.length
        · rw [if_pos h50]
          exact iff_of_true ⟨.tooLong, rfl⟩ (.inr (.inr (.inl h50)))
        · rw [if_neg h50]
          by_cases hall : (skuNorm s).data.all skuValidChar = true
          · rw [if_neg (by simp [hall])]
            refine iff_of_false (by simp) ?_
            intro hcontra
            rcases hcontra with hx | hx | hx | hx
            · exact hni hx
            · exact h3 hx
            · exact h50 hx
            · rw [hall] at hx
              exact absurd hx (by simp)
          · have hfalse := eq_false_of_ne_true hall
            rw [if_pos (by simp [hfalse])]
            exact iff_of_true ⟨.badChars, rfl⟩ (.inr (.inr (.inr hfalse)))
  · intro s sk h
    by_cases hempty : (jsTrim s).data.isEmpty = true
    · rw [Sku.create_of_empty hempty] at h
      exact absurd h (by simp)
    · rw [Sku.create_of_not_empty hempty] at h
      split_ifs at h
      injection h with h'
      rw [← h']
  · intro s₁ s₂ hn
    have hemp : (jsTrim s₁).data.isEmpty = (jsTrim s₂).data.isEmpty := by
      by_cases h1 : (jsTrim s₁).data.isEmpty = true
      · have hx2 : (skuNorm s₂).data = [] := by
          rw [← hn]
          exact (skuNorm_nil_iff s₁).mpr h1
        rw [h1, (skuNorm_nil_iff s₂).mp hx2]
      · have h2 : ¬((jsTrim s₂).data.isEmpty = true) := by
          intro hx
          have hx1 : (skuNorm s₁).data = [] := by
            rw [hn]
            exact (skuNorm_nil_iff s₂).mpr hx
          exact h1 ((skuNorm_nil_iff s₁).mp hx1)
        rw [eq_false_of_ne_true h1, eq_false_of_ne_true h2]
    by_cases h2 : (jsTrim s₂).data.isEmpty = true
    · rw [Sku.create_of_empty (hemp.trans h2), Sku.create_of_empty h2]
    · rw [Sku.create_of_not_empty (fun hx => h2 (hemp ▸ hx)),
        Sku.create_of_not_empty h2, hn]

theorem C9_witness :
    Sku.create "  laptop-15 " = .ok ⟨"LAPTOP-15"⟩ ∧
    Sku.create "  laptop-15 " = Sku.create "Laptop-15" := by
  constructor
  · decide
  · exact C9_sku_normalization.2.2 "  laptop-15 " "Laptop-15" (by decide)

theorem uuid_trim_not_empty {s : String} (h : isUuidV4 s = true) :
    ¬(s.data.isEmpty = true) := by
  intro hcontra
  rw [isUuidV4, Bool.and_eq_true] at h
  obtain ⟨hlen, _⟩ := h
  rw [List.isEmpty_iff.mp hcontra] at hlen
  simp at hlen

/-- C10: the identifier factories trim the input before both validation and
storage: creation fails exactly when the trimmed input does not match the
UUID v4 pattern, the stored value is the trimmed input, and surrounding
whitespace around a valid UUID v4 yields the same identifier. -/
theorem C10_identifier_trim :
    (∀ s : String, (∃ e, OrderId.create s = .error e) ↔ isUuidV4 (jsTrim s) = false) ∧
    (∀ (s : String) (oid : OrderId), OrderId.create s = .ok oid → oid.value = jsTrim s) ∧
    (∀ s : String, isUuidV4 s = true →
      OrderId.create (" " ++ s ++ " ") = OrderId.create s ∧
      OrderId.create s = .ok ⟨s⟩) ∧
    (∀ s : String, (∃ e, CustomerId.create s = .error e) ↔ isUuidV4 (jsTrim s) = false) ∧
    (∀ (s : String) (cid : CustomerId), CustomerId.create s = .ok cid → cid.value = jsTrim s) ∧
    (∀ s : String, isUuidV4 s = true →
      CustomerId.create (" " ++ s ++ " ") = CustomerId.create s ∧
      CustomerId.create s = .ok ⟨s⟩) := by
  have hempty_not_uuid : ∀ t : String, t.data.isEmpty = true → isUuidV4 t = false := by
    intro t ht
    rw [isUuidV4]
    rw [List.isEmpty_iff.mp ht]
    simp
  refine ⟨?_, ?_, ?_, ?_, ?_, ?_⟩
  · intro s
    by_cases hempty : (jsTrim s).data.isEmpty = true
    · exact iff_of_true ⟨.empty, by rw [OrderId.create, if_pos hempty]⟩
        (hempty_not_uuid _ hempty)
    · by_cases huuid : isUuidV4 (jsTrim s) = true
      · have hok : OrderId.create s = .ok ⟨jsTrim s⟩ := by
          rw [OrderId.create, if_neg hempty, if_neg (by simp [huuid])]
        rw [hok]
        simp [huuid]
      · have hfalse := eq_false_of_ne_true huuid
        exact iff_of_true
          ⟨.badFormat, by rw [OrderId.create, if_neg hempty, if_pos (by simp [hfalse])]⟩
          hfalse
  · intro s oid h
    rw [OrderId.create] at h
    split_ifs at h
    injection h with h'
    rw [← h']
  · intro s hu
    have hnws := uuid_chars_not_ws hu
    have hpad : jsTrim (" " ++ s ++ " ") = s := jsTrim_pad hnws
    have hself : jsTrim s = s := jsTrim_eq_self hnws
    have hne : ¬(s.data.isEmpty = true) := uuid_trim_not_empty hu
    have hok : OrderId.create s = .ok ⟨s⟩ := by
      rw [OrderId.create, hself, if_neg hne, if_neg (by simp [hu])]
    have hok2 : OrderId.create (" " ++ s ++ " ") = .ok ⟨s⟩ := by
      rw [OrderId.create, hpad, if_neg hne, if_neg (by simp [hu])]
    exact ⟨hok2.trans hok.symm, hok⟩
  · intro s
    by_cases hempty : (jsTrim s).data.isEmpty = true
    · exact iff_of_true ⟨.empty, by rw [CustomerId.create, if_pos hempty]⟩
        (hempty_not_uuid _ hempty)
    · by_cases huuid : isUuidV4 (jsTrim s) = true
      · have hok : CustomerId.create s = .ok ⟨jsTrim s⟩ := by
          rw [CustomerId.create, if_neg hempty, if_neg (by simp [huuid])]
        rw [hok]
        simp [huuid]
      · have hfalse := eq_false_of_ne_true huuid
        exact iff_of_true
          ⟨.badFormat, by rw [CustomerId.create, if_neg hempty, if_pos (by simp [hfalse])]⟩
          hfalse
  · intro s cid h
    rw [CustomerId.create] at h
    split_ifs at h
    injection h with h'
    rw [← h']
  · intro s hu
    have hnws := uuid_chars_not_ws hu
    have hpad : jsTrim (" " ++ s ++ " ") = s := jsTrim_pad hnws
    have hself : jsTrim s = s := jsTrim_eq_self hnws
    have hne : ¬(s.data.isEmpty = true) := uuid_trim_not_empty hu
    have hok : CustomerId.create s = .ok ⟨s⟩ := by
      rw [CustomerId.create, hself, if_neg hne, if_neg (by simp [hu])]
    have hok2 : CustomerId.create (" " ++ s ++ " ") = .ok ⟨s⟩ := by
      rw [CustomerId.create, hpad, if_neg hne, if_neg (by simp [hu])]
    exact ⟨hok2.trans hok.symm, hok⟩

theorem C10_witness :
    OrderId.create (" " ++ "11111111-1111-4111-8111-111111111111" ++ " ") =
      OrderId.create "11111111-1111-4111-8111-111111111111" ∧
    CustomerId.create (" " ++ "22222222-2222-4222-a222-222222222222" ++ " ") =
      CustomerId.create "22222222-2222-4222-a222-222222222222" := by
  constructor
  · exact (C10_identifier_trim.2.2.1 "11111111-1111-4111-8111-111111111111" (by decide)).1
  · exact (C10_identifier_trim.2.2.2.2.2 "22222222-2222-4222-a222-222222222222" (by decide)).1

/-! Lemmas about the Order aggregate. -/

theorem round2_add_amounts {a b : ℚ}
    (ha : ∃ k : ℕ, a = (k : ℚ) / 100) (hb : ∃ k : ℕ, b = (k : ℚ) / 100) :
    round2 (a + b) = a + b := by
  obtain ⟨ka, rfl⟩ := ha
  obtain ⟨kb, rfl⟩ := hb
  have hsum : (ka : ℚ) / 100 + (kb : ℚ) / 100 = ((ka + kb : ℕ) : ℚ) / 100 := by
    push_cast
    ring
  rw [hsum, round2_natCents]

theorem Quantity.valid_value_nonneg {q : Quantity} (h : q.IsValid) : 0 ≤ q.value := by
  obtain ⟨n, hv, h1, _⟩ := h
  rw [hv]
  have : (0 : ℤ) ≤ n := by omega
  exact_mod_cast this

theorem OrderItem.lineTotal_eq {sku : Sku} {p : Money} {q : Quantity}
    (hp : p.IsValid) (hq : q.IsValid) :
    (OrderItem.create sku p q).calculateTotal =
      .ok ⟨round2 (p.amount * q.value), p.currency⟩ :=
  Money.multiply_ok (Money.isValid_nonneg hp) (Quantity.valid_value_nonneg hq)

theorem OrderItem.lineTotal_valid {sku : Sku} {p : Money} {q : Quantity}
    (hp : p.IsValid) (hq : q.IsValid) :
    Money.IsValid ⟨round2 (p.amount * q.value), p.currency⟩ :=
  round2_isCents _ (mul_nonneg (Money.isValid_nonneg hp) (Quantity.valid_value_nonneg hq))

theorem Order.addItem_ok_inv {o o' : Order} {sku : Sku} {p : Money} {q : Quantity}
    (h : o.addItem sku p q = .ok o') :
    p.currency = o.currency ∧ o.items.length < 100 ∧
    (∀ it ∈ o.items, ¬(it.sku.equals sku = true)) ∧
    ∃ t : Money, (OrderItem.create sku p q).calculateTotal = .ok t ∧
      o' = { o with
              items := o.items ++ [OrderItem.create sku p q]
              domainEvents := o.domainEvents ++
                [.itemAddedToOrder o.id sku p q t] } := by
  rw [Order.addItem] at h
  by_cases h1 : o.currency.equals p.currency = true
  · rw [if_neg (by simp [h1])] at h
    by_cases h2 : Order.maxItems ≤ o.items.length
    · rw [if_pos h2] at h
      exact absurd h (by simp)
    · rw [if_neg h2] at h
      by_cases h3 : (o.items.any fun it => it.sku.equals sku) = true
      · rw [if_pos h3] at h
        exact absurd h (by simp)
      · rw [if_neg h3] at h
        cases hm : (OrderItem.create sku p q).calculateTotal with
        | error e =>
          rw [hm] at h
          exact absurd h (by simp)
        | ok t =>
          rw [hm] at h
          injection h with h'
          refine ⟨(Currency.equals_iff.mp h1).symm, ?_, ?_, t, rfl, h'.symm⟩
          · have : o.items.length < Order.maxItems := not_le.mp h2
            exact this
          · intro it hit hcontra
            exact h3 (List.any_eq_true.mpr ⟨it, hit, hcontra⟩)
  · rw [if_pos (by simp [h1])] at h
    exact absurd h (by simp)

theorem Order.addItem_error_inv {o o' : Order} {sku : Sku} {p : Money} {q : Quantity}
    {e : OrderError} (hp : p.IsValid) (hq : q.IsValid)
    (h : o.addItem sku p q = .error (e, o')) : o' = o := by
  rw [Order.addItem] at h
  by_cases h1 : o.currency.equals p.currency = true
  · rw [if_neg (by simp [h1])] at h
    by_cases h2 : Order.maxItems ≤ o.items.length
    · rw [if_pos h2] at h
      injection h with h'
      exact (congrArg Prod.snd h').symm
    · rw [if_neg h2] at h
      by_cases h3 : (o.items.any fun it => it.sku.equals sku) = true
      · rw [if_pos h3] at h
        injection h with h'
        exact (congrArg Prod.snd h').symm
      · rw [if_neg h3] at h
        rw [OrderItem.lineTotal_eq hp hq] at h
        exact absurd h (by simp)
  · rw [if_pos (by simp [h1])] at h
    injection h with h'
    exact (congrArg Prod.snd h').symm

theorem Order.reachable_invariants {o : Order} (h : o.Reachable) :
    o.ItemsValid ∧ o.InvariantB ∧ o.InvariantC := by
  induction h with
  | created id customerId currency =>
    refine ⟨?_, ?_, ?_⟩
    · intro it hit
      exact absurd hit (by simp [Order.create])
    · simp [Order.create, Order.InvariantB]
    · simp [Order.create, Order.InvariantC]
  | added sku unitPrice quantity hr hp hq hok ih =>
    obtain ⟨hv, hb, hc⟩ := ih
    obtain ⟨hcur, hlen, hnodup, t, ht, ho'⟩ := Order.addItem_ok_inv hok
    subst ho'
    refine ⟨?_, ?_, ?_⟩
    · intro it hit
      simp only [List.mem_append, List.mem_singleton] at hit
      rcases hit with hold | hnew
      · exact hv it hold
      · subst hnew
        exact ⟨hcur, hp, hq⟩
    · rw [Order.InvariantB]
      rw [List.pairwise_append]
      refine ⟨hb, List.pairwise_singleton _ _, ?_⟩
      intro a ha b hbmem
      simp only [List.mem_singleton] at hbmem
      subst hbmem
      intro hcontra
      exact hnodup a ha (Sku.equals_code_iff.mpr hcontra)
    · rw [Order.InvariantC]
      simp only [List.length_append, List.length_singleton]
      rw [Order.maxItems]
      omega

/-- C1: every order reachable by `create` followed by successful `addItem`
calls satisfies the three structural invariants: matching item currencies,
pairwise distinct SKU codes, and at most 100 items. -/
theorem C1_order_invariants {o : Order} (h : o.Reachable) :
    o.InvariantA ∧ o.InvariantB ∧ o.InvariantC :=
  ⟨fun it hit => ((Order.reachable_invariants h).1 it hit).1,
   (Order.reachable_invariants h).2.1,
   (Order.reachable_invariants h).2.2⟩

def wId : OrderId := ⟨"11111111-1111-4111-8111-111111111111"⟩

def wCust : CustomerId := ⟨"22222222-2222-4222-a222-222222222222"⟩

def wBase : Order := Order.create wId wCust Currency.USD

def wOne : Order :=
  { id := wId
    customerId := wCust
    currency := Currency.USD
    items := [⟨⟨"ABC-1"⟩, ⟨10, Currency.USD⟩, ⟨1⟩⟩]
    domainEvents := [.orderCreated wId wCust Currency.USD,
      .itemAddedToOrder wId ⟨"ABC-1"⟩ ⟨10, Currency.USD⟩ ⟨1⟩ ⟨10, Currency.USD⟩] }

theorem C1_witness : Order.InvariantA wOne ∧ Order.InvariantB wOne ∧ Order.InvariantC wOne :=
  C1_order_invariants
    (Order.Reachable.added ⟨"ABC-1"⟩ ⟨10, Currency.USD⟩ ⟨1⟩
      (Order.Reachable.created wId wCust Currency.USD)
      ⟨1000, by decide⟩ ⟨1, by decide, by decide, by decide⟩ (by decide))

/-- C2 as written is refuted at a concrete input: an order holding one item
with SKU "ABC-1" and fewer than 100 items, when asked to add the same SKU
priced in EUR, throws CurrencyMismatch, not DuplicateSku. -/
theorem C2_counterexample :
    wOne.itemCount = 1 ∧
    (wOne.items.any fun it => it.sku.equals ⟨"ABC-1"⟩) = true ∧
    wOne.addItem ⟨"ABC-1"⟩ ⟨5, Currency.EUR⟩ ⟨1⟩ =
      .error (.currencyMismatch "EUR" "USD", wOne) ∧
    OrderError.currencyMismatch "EUR" "USD" ≠ OrderError.duplicateSku "ABC-1" := by
  refine ⟨by decide, by decide, by decide, by decide⟩

/-- C2 (amended): `addItem` validates currency match, then the item limit,
then duplicate SKU. For an add with matching currency: on an order that
already has 100 items it fails with ItemLimitExceeded even when the SKU
duplicates an existing one, and on an order with fewer than 100 items whose
items already contain the SKU it fails with DuplicateSku. -/
theorem C2_validation_order {o : Order} {sku : Sku} {p : Money} {q : Quantity}
    (hcur : p.currency = o.currency) :
    (o.items.length = 100 → o.addItem sku p q = .error (.itemLimitExceeded, o)) ∧
    (o.items.length < 100 → (o.items.any fun it => it.sku.equals sku) = true →
      o.addItem sku p q = .error (.duplicateSku sku.code, o)) := by
  have he : o.currency.equals p.currency = true := Currency.equals_iff.mpr hcur.symm
  constructor
  · intro hlen
    rw [Order.addItem, if_neg (by simp [he]), if_pos (by rw [hlen, Order.maxItems])]
  · intro hlen hdup
    rw [Order.addItem, if_neg (by simp [he]),
      if_neg (by rw [Order.maxItems]; omega), if_pos hdup]

def wFullItems : List OrderItem :=
  (List.range 100).map fun i => ⟨⟨"SKU-" ++ toString i⟩, ⟨1, Currency.USD⟩, ⟨1⟩⟩

def wFull : Order :=
  { id := wId
    customerId := wCust
    currency := Currency.USD
    items := wFullItems
    domainEvents := [] }

theorem C2_witness :
    wFull.addItem ⟨"SKU-0"⟩ ⟨1, Currency.USD⟩ ⟨1⟩ = .error (.itemLimitExceeded, wFull) ∧
    wOne.addItem ⟨"ABC-1"⟩ ⟨5, Currency.USD⟩ ⟨1⟩ = .error (.duplicateSku "ABC-1", wOne) := by
  constructor
  · exact (C2_validation_order (by decide)).1 (by decide)
  · exact (C2_validation_order (by decide)).2 (by decide) (by decide)

/-- C3: `addItem` is atomic for arguments the value-object factories can
produce: on failure the returned aggregate state is exactly the state before
the call, and on success exactly one item and one ItemAddedToOrder event are
appended. -/
theorem C3_addItem_atomic {o : Order} {sku : Sku} {p : Money} {q : Quantity}
    (hp : p.IsValid) (hq : q.IsValid) :
    (∀ (e : OrderError) (o' : Order), o.addItem sku p q = .error (e, o') → o' = o) ∧
    (∀ o' : Order, o.addItem sku p q = .ok o' →
      o'.items = o.items ++ [OrderItem.create sku p q] ∧
      ∃ t : Money, (OrderItem.create sku p q).calculateTotal = .ok t ∧
        o'.domainEvents = o.domainEvents ++ [.itemAddedToOrder o.id sku p q t]) := by
  constructor
  · intro e o' h
    exact Order.addItem_error_inv hp hq h
  · intro o' h
    obtain ⟨_, _, _, t, ht, ho'⟩ := Order.addItem_ok_inv h
    subst ho'
    exact ⟨rfl, t, ht, rfl⟩

theorem C3_witness :
    wOne.items = wBase.items ++ [OrderItem.create ⟨"ABC-1"⟩ ⟨10, Currency.USD⟩ ⟨1⟩] ∧
    ∃ t : Money,
      (OrderItem.create ⟨"ABC-1"⟩ ⟨10, Currency.USD⟩ ⟨1⟩).calculateTotal = .ok t ∧
      wOne.domainEvents = wBase.domainEvents ++
        [.itemAddedToOrder wBase.id ⟨"ABC-1"⟩ ⟨10, Currency.USD⟩ ⟨1⟩ t] :=
  (C3_addItem_atomic ⟨1000, by decide⟩ ⟨1, by decide, by decide, by decide⟩).2
    wOne (by decide)

/-- The amount contributed by one item: its line total, rounded as
`Money.multiply` rounds. -/
def lineTotalAmount (it : OrderItem) : ℚ :=
  round2 (it.unitPrice.amount * it.quantity.value)

/-- The amount of the left fold of `Money.add` over the line totals starting
from zero: each step adds a line total and rounds as `Money.add` rounds. -/
def totalFoldAmount (items : List OrderItem) : ℚ :=
  items.foldl (fun a it => round2 (a + lineTotalAmount it)) 0

theorem Money.addLineTotals_ok {c : Currency} (items : List OrderItem) (acc : Money)
    (hacc : acc.IsValid) (hcur : acc.currency = c)
    (hitems : ∀ it ∈ items,
      it.unitPrice.currency = c ∧ Money.IsValid it.unitPrice ∧ Quantity.IsValid it.quantity) :
    ∃ m : Money, Money.addLineTotals acc items = .ok m ∧ m.currency = c ∧ m.IsValid ∧
      m.amount = items.foldl (fun a it => round2 (a + lineTotalAmount it)) acc.amount := by
  induction items generalizing acc with
  | nil => exact ⟨acc, rfl, hcur, hacc, rfl⟩
  | cons it rest ih =>
    obtain ⟨hitc, hitv, hitq⟩ := hitems it (List.mem_cons_self it rest)
    have ht : it.calculateTotal = .ok ⟨lineTotalAmount it, it.unitPrice.currency⟩ :=
      Money.multiply_ok (Money.isValid_nonneg hitv) (Quantity.valid_value_nonneg hitq)
    have htv : (∃ k : ℕ, lineTotalAmount it = (k : ℚ) / 100) :=
      round2_isCents _ (mul_nonneg (Money.isValid_nonneg hitv) (Quantity.valid_value_nonneg hitq))
    have hadd : acc.add ⟨lineTotalAmount it, it.unitPrice.currency⟩ =
        .ok ⟨acc.amount + lineTotalAmount it, acc.currency⟩ :=
      Money.add_ok hacc htv (hcur.trans hitc.symm)
    have hstep : Money.addLineTotals acc (it :: rest) =
        Money.addLineTotals ⟨acc.amount + lineTotalAmount it, acc.currency⟩ rest := by
      simp only [Money.addLineTotals, ht, hadd]
    have hacc2 : Money.IsValid ⟨acc.amount + lineTotalAmount it, acc.currency⟩ := by
      obtain ⟨ka, hka⟩ := hacc
      obtain ⟨kb, hkb⟩ := htv
      refine ⟨ka + kb, ?_⟩
      show acc.amount + lineTotalAmount it = _
      rw [hka, hkb]
      push_cast
      ring
    obtain ⟨m, hm, h1, h2, h3⟩ := ih ⟨acc.amount + lineTotalAmount it, acc.currency⟩
      hacc2 hcur (fun x hx => hitems x (List.mem_cons_of_mem it hx))
    refine ⟨m, hstep.trans hm, h1, h2, ?_⟩
    rw [h3]
    show rest.foldl _ (acc.amount + lineTotalAmount it) =
      (it :: rest).foldl _ acc.amount
    rw [List.foldl_cons]
    have hround : round2 (acc.amount + lineTotalAmount it) =
        acc.amount + lineTotalAmount it := round2_add_amounts hacc htv
    rw [hround]

/-- Appending the OrderTotalCalculated audit event, as `calculateTotal`
does for a non-empty order. -/
def Order.withCalcEvent (o : Order) (m : Money) : Order :=
  { o with domainEvents := o.domainEvents ++
      [.orderTotalCalculated o.id m o.items.length] }

theorem Order.calculateTotal_empty {o : Order} (h : o.items = []) :
    o.calculateTotal = .ok (Money.zero o.currency, o) := by
  rw [Order.calculateTotal, if_pos (by simp [h])]

theorem Order.calculateTotal_ok {o : Order} (h : o.ItemsValid) (hne : o.items ≠ []) :
    o.calculateTotal = .ok (⟨totalFoldAmount o.items, o.currency⟩,
      o.withCalcEvent ⟨totalFoldAmount o.items, o.currency⟩) := by
  obtain ⟨m, hm, hc, hv, ha⟩ :=
    Money.addLineTotals_ok o.items (Money.zero o.currency) (Money.zero_isValid _) rfl h
  have hm2 : m = ⟨totalFoldAmount o.items, o.currency⟩ := by
    cases m with
    | mk ma mc =>
      simp only at hc ha
      subst hc
      have hma : ma = totalFoldAmount o.items := by
        rw [ha]
        rfl
      rw [hma]
      rfl
  rw [Order.calculateTotal, if_neg (by simp [hne]), hm, hm2]
  rfl

def exBase : Order := Order.create wId wCust Currency.USD

def exOrder : Order :=
  ((exBase.addItem ⟨"SKU-A"⟩ ⟨10, Currency.USD⟩ ⟨2⟩).toOption.getD exBase
    |>.addItem ⟨"SKU-B"⟩ ⟨11/2, Currency.USD⟩ ⟨1⟩).toOption.getD exBase

/-- C4: `calculateTotal` returns the left fold of `Money.add` over the
items' line totals (each line total being the unit price multiplied by the
quantity value) starting from zero of the order's currency; on the
two-item example (10.00 USD x 2 and 5.50 USD x 1) it returns exactly
25.50 USD. -/
theorem C4_calculate_total_fold :
    (∀ o : Order, o.ItemsValid →
      ∃ o' : Order, o.calculateTotal =
        .ok (⟨totalFoldAmount o.items, o.currency⟩, o')) ∧
    (exOrder.calculateTotal).toOption.map Prod.fst = some ⟨51/2, Currency.USD⟩ := by
  constructor
  · intro o h
    by_cases hne : o.items = []
    · refine ⟨o, ?_⟩
      rw [Order.calculateTotal_empty hne, hne]
      rfl
    · exact ⟨_, Order.calculateTotal_ok h hne⟩
  · decide

theorem C4_witness :
    ∃ o' : Order, exOrder.calculateTotal =
      .ok (⟨totalFoldAmount exOrder.items, exOrder.currency⟩, o') := by
  refine C4_calculate_total_fold.1 exOrder ?_
  intro it hit
  have hitems : exOrder.items =
      [⟨⟨"SKU-A"⟩, ⟨10, Currency.USD⟩, ⟨2⟩⟩, ⟨⟨"SKU-B"⟩, ⟨11/2, Currency.USD⟩, ⟨1⟩⟩] := by
    decide
  rw [hitems] at hit
  simp only [List.mem_cons, List.not_mem_nil, or_false] at hit
  rcases hit with rfl | rfl
  · exact ⟨by decide, ⟨1000, by decide⟩, ⟨2, by decide, by decide, by decide⟩⟩
  · exact ⟨by decide, ⟨550, by decide⟩, ⟨1, by decide, by decide, by decide⟩⟩

/-- C5: on an empty order `calculateTotal` returns zero of the order's
currency and appends no event; on a non-empty order each call appends
exactly one OrderTotalCalculated event and repeated calls return the same
total, appending one more event each time. -/
theorem C5_calculate_total_events :
    (∀ o : Order, o.items = [] → o.calculateTotal = .ok (Money.zero o.currency, o)) ∧
    (∀ o : Order, o.ItemsValid → o.items ≠ [] →
      ∃ m : Money, o.calculateTotal = .ok (m, o.withCalcEvent m) ∧
        (o.withCalcEvent m).calculateTotal =
          .ok (m, (o.withCalcEvent m).withCalcEvent m)) := by
  constructor
  · intro o h
    exact Order.calculateTotal_empty h
  · intro o h hne
    refine ⟨⟨totalFoldAmount o.items, o.currency⟩, Order.calculateTotal_ok h hne, ?_⟩
    have h2 : (o.withCalcEvent ⟨totalFoldAmount o.items, o.currency⟩).ItemsValid :=
      fun it hit => h it hit
    have hne2 : (o.withCalcEvent ⟨totalFoldAmount o.items, o.currency⟩).items ≠ [] := hne
    exact Order.calculateTotal_ok h2 hne2

theorem C5_witness :
    wBase.calculateTotal = .ok (Money.zero wBase.currency, wBase) ∧
    ∃ m : Money, wOne.calculateTotal = .ok (m, wOne.withCalcEvent m) ∧
      (wOne.withCalcEvent m).calculateTotal =
        .ok (m, (wOne.withCalcEvent m).withCalcEvent m) := by
  constructor
  · exact C5_calculate_total_events.1 wBase rfl
  · refine C5_calculate_total_events.2 wOne ?_ (by decide)
    intro it hit
    have hitems : wOne.items = [⟨⟨"ABC-1"⟩, ⟨10, Currency.USD⟩, ⟨1⟩⟩] := by decide
    rw [hitems] at hit
    simp only [List.mem_cons, List.not_mem_nil, or_false] at hit
    subst hit
    exact ⟨by decide, ⟨1000, by decide⟩, ⟨1, by decide, by decide, by decide⟩⟩
